import Mathlib

/-!
Shallow embedding of the `migrate` package (migrate.go): a database
migration engine that applies numbered migrations in ascending order,
each in its own transaction, recording progress in a `schema_migrations`
table and bootstrapping that table (with a single retry) when absent.

The database is modelled as a state `DB σ`: the driver kind, the
optional `schema_migrations` table (a list of (version, created_at)
records; `none` means the table does not exist), a clock supplying
timestamps, an injectable fault for the watermark query (modelling
query failures other than the structural missing-table one), and an
abstract user-schema state `σ` that migration bodies act on.
-/

/-- The kind of database driver behind the `*sql.DB` handle. -/
inductive Driver where
  | postgres
  | sqlite
  | other
deriving DecidableEq, Repr

/-- Go `error` values relevant to migrate.go: `pq.Error` (with its code
name), `sqlite3.Error`, generic errors, `sql.ErrNoRows`, the sentinel
`errMissingSchemaMigration`, the "unsupported driver" error produced by
`isUndefinedTable`, a primary-key violation on record insertion, and
`fmt.Errorf("ctx: %w", inner)` wrapping. -/
inductive Err where
  | pq (code : String) (msg : String)
  | sqlite (msg : String)
  | generic (msg : String)
  | noRows
  | missingSchemaMigration
  | unsupportedDriver
  | constraintViolation (version : Int)
  | wrapped (ctx : String) (inner : Err)
deriving DecidableEq, Repr

deriving instance DecidableEq for Except

/-- Go `errors.Is`: identity with the target, unwrapping `%w` wrapping. -/
def Err.is (e target : Err) : Bool :=
  e == target ||
    match e with
    | .wrapped _ inner => inner.is target
    | _ => false

/-- Go `errors.As(err, &pqerr)`: find a `pq.Error` in the unwrap chain. -/
def Err.asPq : Err → Option (String × String)
  | .pq code msg => some (code, msg)
  | .wrapped _ inner => inner.asPq
  | _ => none

/-- Go `errors.As(err, &sqliteErr)`: find a `sqlite3.Error` in the unwrap chain. -/
def Err.asSqlite : Err → Option String
  | .sqlite msg => some msg
  | .wrapped _ inner => inner.asSqlite
  | _ => none

/-- Go `err.Error()`: the rendered message of the whole error value. -/
def Err.message : Err → String
  | .pq _ msg => msg
  | .sqlite msg => msg
  | .generic msg => msg
  | .noRows => "sql: no rows in result set"
  | .missingSchemaMigration => "missing schema migrations"
  | .unsupportedDriver => "unsupported driver"
  | .constraintViolation _ => "unique constraint violation on schema_migrations.version"
  | .wrapped ctx inner => ctx ++ ": " ++ inner.message

/-- migrate.go `isUndefinedTable`: classify an error as the
backend-specific "undefined table" signal.  A `pq.Error` is classified
by its code name; a `sqlite3.Error` by the whole error's message; any
other error yields the distinct "unsupported driver" error. -/
def isUndefinedTable (e : Err) : Except Err Bool :=
  match e.asPq with
  | some (code, _) => .ok (code == "undefined_table")
  | none =>
    match e.asSqlite with
    | some _ => .ok (e.message == "no such table: schema_migrations")
    | none => .error .unsupportedDriver

/-- The database state.  `smTable = none` models the `schema_migrations`
table not existing; `some recs` models it holding the records `recs`
(version, created_at) in insertion order.  `queryFault` injects a
failure into the watermark query (a `none` fault means the query behaves
structurally: it fails exactly when the table is absent).  `user` is the
rest of the schema, which migration bodies act upon. -/
structure DB (σ : Type) where
  driver : Driver
  smTable : Option (List (Int × Nat))
  clock : Nat
  queryFault : Option Err
  user : σ
deriving DecidableEq

/-- A migration body (Go `Migration = func(tx *sql.Tx) error`): acts on
the user schema inside the transaction, or fails. -/
abbrev Mig (σ : Type) := σ → Except Err σ

/-- The driver-specific error produced by querying a table that does not
exist. -/
def undefinedTableError : Driver → Err
  | .postgres => .pq "undefined_table" "relation schema_migrations does not exist"
  | .sqlite => .sqlite "no such table: schema_migrations"
  | .other => .generic "no such table: schema_migrations"

/-- The driver-specific error produced by `create table` when the table
already exists. -/
def tableExistsError : Driver → Err
  | .postgres => .pq "duplicate_table" "relation schema_migrations already exists"
  | .sqlite => .sqlite "table schema_migrations already exists"
  | .other => .generic "table schema_migrations already exists"

/-- The query `select coalesce(max(version), -1) from schema_migrations`: the
maximum recorded version, or -1 when the table is empty. -/
def maxVersion (recs : List (Int × Nat)) : Int :=
  match recs with
  | [] => -1
  | r :: rs => (rs.map Prod.fst).foldl max r.1

/-- Semantics of running the watermark query against the database: an
injected fault fails the query; otherwise it fails with the
driver-specific undefined-table error exactly when the table is absent,
and returns the coalesced maximum version otherwise. -/
def queryMaxVersion (db : DB σ) : Except Err Int :=
  match db.queryFault with
  | some e => .error e
  | none =>
    match db.smTable with
    | none => .error (undefinedTableError db.driver)
    | some recs => .ok (maxVersion recs)

/-- The watermark-reading transaction in `Migrate` (migrate.go lines
45-59): run the query; `sql.ErrNoRows` is ignored (leaving `maxApplied`
at Go's zero value 0); an undefined-table failure becomes the sentinel
`errMissingSchemaMigration`; a failure `isUndefinedTable` cannot parse
is wrapped "failed to parse error"; any other failure is wrapped
"failed to select max applied migration".  The transaction is read-only,
so commit/rollback leave the state unchanged. -/
def selectWatermark (db : DB σ) : Except Err Int :=
  match queryMaxVersion db with
  | .ok v => .ok v
  | .error e =>
    if e.is .noRows then .ok 0
    else
      match isUndefinedTable e with
      | .error e2 => .error (.wrapped "failed to parse error" e2)
      | .ok true => .error .missingSchemaMigration
      | .ok false => .error (.wrapped "failed to select max applied migration" e)

/-- migrate.go `initializeSchemaMigrations`: `create table
schema_migrations (...)`.  Succeeds exactly when the table does not yet
exist, creating it empty. -/
def initializeSchemaMigrations (db : DB σ) : Except Err (DB σ) :=
  match db.smTable with
  | some _ => .error (tableExistsError db.driver)
  | none => .ok { db with smTable := some [] }

/-- The statement `insert into schema_migrations (version, created_at) values (k, now)`:
fails if the table is absent or the version (primary key) is already
recorded; otherwise appends the record stamped with the current clock. -/
def insertRecord (db : DB σ) (k : Int) : Except Err (DB σ) :=
  match db.smTable with
  | none => .error (undefinedTableError db.driver)
  | some recs =>
    if recs.any (fun r => r.1 == k) then .error (.constraintViolation k)
    else .ok { db with smTable := some (recs ++ [(k, db.clock)]), clock := db.clock + 1 }

/-- One iteration of the apply loop inside `withTx` (migrate.go lines
74-86): invoke the body; on success insert the record in the same
transaction.  An error on either step rolls the transaction back, so the
caller's state is unchanged in that case. -/
def applyOne (db : DB σ) (k : Int) (m : Mig σ) : Except Err (DB σ) :=
  match m db.user with
  | .error e => .error e
  | .ok u => insertRecord { db with user := u } k

/-- Result of a `Migrate` call: the final database state, the versions
whose bodies were invoked (in invocation order), how many times the
missing-store retry was taken, and the returned error, if any. -/
structure RunResult (σ : Type) where
  db : DB σ
  invoked : List Int
  retries : Nat
  err : Option Err
deriving DecidableEq

/-- The apply loop of `Migrate` (migrate.go lines 70-90): walk the
sorted keys, skipping those at or below the watermark; apply each
outstanding one in its own transaction and stop at the first error. -/
def migrateLoop (body : Int → Mig σ) (maxApplied : Int) :
    List Int → DB σ → RunResult σ
  | [], db => ⟨db, [], 0, none⟩
  | k :: ks, db =>
    if k ≤ maxApplied then migrateLoop body maxApplied ks db
    else
      match applyOne db k (body k) with
      | .error e => ⟨db, [k], 0, some e⟩
      | .ok db' =>
        let r := migrateLoop body maxApplied ks db'
        ⟨r.db, k :: r.invoked, 0, r.err⟩

/-- Go `sort.Ints(keys)`: the key list sorted ascending. -/
def sortInts (keys : List Int) : List Int :=
  List.insertionSort (· ≤ ·) keys

/-- The function `Migrate`, with explicit fuel bounding the recursive
retry-by-reinvocation (migrate.go line 65).  A retry happens only after
`initializeSchemaMigrations` succeeds, which requires the table to be
absent and leaves it present, so fuel 2 is never exhausted (proved
below as `migrateFuel_fuel_irrelevant`). -/
def migrateFuel (fuel : Nat) (db : DB σ) (keys : List Int) (body : Int → Mig σ) :
    RunResult σ :=
  match fuel with
  | 0 => ⟨db, [], 0, some (.generic "retry limit exceeded")⟩
  | fuel' + 1 =>
    match selectWatermark db with
    | .error e =>
      if e.is .missingSchemaMigration then
        match initializeSchemaMigrations db with
        | .error e2 => ⟨db, [], 0, some (.wrapped "failed to initialize schema migrations" e2)⟩
        | .ok db' =>
          let r := migrateFuel fuel' db' keys body
          { r with retries := r.retries + 1 }
      else ⟨db, [], 0, some e⟩
    | .ok maxApplied => migrateLoop body maxApplied (sortInts keys) db

/-- migrate.go `Migrate`: collect and sort the keys, read the watermark
(initializing the bookkeeping table and retrying once when it is
missing), then apply each outstanding migration in ascending order.
The input mapping is a key list (in arbitrary iteration order) together
with a body for each key, mirroring Go's `map[int]Migration`. -/
def Migrate (db : DB σ) (keys : List Int) (body : Int → Mig σ) : RunResult σ :=
  migrateFuel 2 db keys body

/-- The versions currently recorded as applied. -/
def versions (db : DB σ) : List Int :=
  match db.smTable with
  | none => []
  | some recs => recs.map Prod.fst

/-- The versions whose transactions committed in a run: every invoked
version, except the last invoked one when the run ended in an error
(that transaction rolled back). -/
def committedOf (r : RunResult σ) : List Int :=
  match r.err with
  | none => r.invoked
  | some _ => r.invoked.dropLast

-- Sanity checks on concrete runs.
example :
    (Migrate (σ := Nat)
      ⟨.sqlite, none, 0, none, 0⟩ [2, 1]
      (fun _ u => .ok (u + 1))).invoked = [1, 2] := by decide

example :
    (Migrate (σ := Nat)
      ⟨.sqlite, none, 0, none, 0⟩ [2, 1]
      (fun _ u => .ok (u + 1))).db.smTable = some [(1, 0), (2, 1)] := by decide

example :
    (Migrate (σ := Nat)
      ⟨.other, none, 0, none, 0⟩ [1]
      (fun _ u => .ok u)).err =
      some (.wrapped "failed to parse error" .unsupportedDriver) := by decide

/-! ### Helper lemmas about single steps -/

theorem insertRecord_ok_eq {db db' : DB σ} {k : Int} {recs : List (Int × Nat)}
    (h : db.smTable = some recs) (h2 : insertRecord db k = .ok db') :
    db' = { db with smTable := some (recs ++ [(k, db.clock)]), clock := db.clock + 1 } := by
  unfold insertRecord at h2
  rw [h] at h2
  by_cases ha : recs.any (fun r => r.1 == k)
  · simp [ha] at h2
  · simp [ha] at h2
    exact h2.symm

theorem applyOne_ok_eq {db db' : DB σ} {k : Int} {m : Mig σ} {recs : List (Int × Nat)}
    (h : db.smTable = some recs) (h2 : applyOne db k m = .ok db') :
    ∃ u, db' = { db with user := u, smTable := some (recs ++ [(k, db.clock)]),
                         clock := db.clock + 1 } := by
  unfold applyOne at h2
  cases hm : m db.user with
  | error e => rw [hm] at h2; exact absurd h2 (by simp)
  | ok u =>
    rw [hm] at h2
    refine ⟨u, ?_⟩
    have := @insertRecord_ok_eq σ { db with user := u } db' k recs h h2
    simpa using this

theorem init_ok_eq {db db' : DB σ}
    (h : initializeSchemaMigrations db = .ok db') :
    db.smTable = none ∧ db' = { db with smTable := some [] } := by
  unfold initializeSchemaMigrations at h
  cases hs : db.smTable with
  | none => rw [hs] at h; simp at h; exact ⟨rfl, h.symm⟩
  | some recs => rw [hs] at h; simp at h

theorem init_some_err {db : DB σ} {recs : List (Int × Nat)}
    (h : db.smTable = some recs) :
    initializeSchemaMigrations db = .error (tableExistsError db.driver) := by
  unfold initializeSchemaMigrations
  rw [h]

/-! ### Lemmas about `maxVersion` -/

theorem foldl_max_init_le (l : List Int) (a : Int) : a ≤ l.foldl max a := by
  induction l generalizing a with
  | nil => exact le_refl a
  | cons x xs ih =>
    simp only [List.foldl_cons]
    exact le_trans (le_max_left a x) (ih (max a x))

theorem foldl_max_mem_le {l : List Int} {x : Int} (a : Int) (hx : x ∈ l) :
    x ≤ l.foldl max a := by
  induction l generalizing a with
  | nil => cases hx
  | cons y ys ih =>
    simp only [List.foldl_cons]
    rcases List.mem_cons.mp hx with h | h
    · subst h
      exact le_trans (le_max_right a x) (foldl_max_init_le ys (max a x))
    · exact ih (max a y) h

theorem maxVersion_mem_le {recs : List (Int × Nat)} {p : Int × Nat} (hp : p ∈ recs) :
    p.1 ≤ maxVersion recs := by
  cases recs with
  | nil => cases hp
  | cons r rs =>
    unfold maxVersion
    rcases List.mem_cons.mp hp with h | h
    · subst h; exact foldl_max_init_le _ _
    · exact foldl_max_mem_le r.1 (List.mem_map_of_mem Prod.fst h)

theorem maxVersion_append_left {recs : List (Int × Nat)} (l : List (Int × Nat))
    (h : recs ≠ []) : maxVersion recs ≤ maxVersion (recs ++ l) := by
  cases recs with
  | nil => exact absurd rfl h
  | cons r rs =>
    simp only [List.cons_append]
    unfold maxVersion
    simp only [List.map_append, List.foldl_append]
    exact foldl_max_init_le _ _

theorem maxVersion_ge_of_forall_gt {recs : List (Int × Nat)} {w : Int}
    (h : ∀ p ∈ recs, w < p.1) : recs = [] ∨ w < maxVersion recs := by
  cases recs with
  | nil => exact Or.inl rfl
  | cons r rs =>
    right
    calc w < r.1 := h r (List.mem_cons_self r rs)
    _ ≤ maxVersion (r :: rs) := maxVersion_mem_le (List.mem_cons_self r rs)

/-! ### Lemmas about `applyOne` field preservation -/

theorem applyOne_ok_fields {db db' : DB σ} {k : Int} {m : Mig σ}
    (h : applyOne db k m = .ok db') :
    db'.queryFault = db.queryFault ∧ db'.driver = db.driver := by
  unfold applyOne at h
  cases hm : m db.user with
  | error e => rw [hm] at h; exact absurd h (by simp)
  | ok u =>
    rw [hm] at h
    unfold insertRecord at h
    cases hs : db.smTable with
    | none =>
      have : ({ db with user := u } : DB σ).smTable = none := hs
      rw [this] at h
      exact absurd h (by simp)
    | some recs =>
      have : ({ db with user := u } : DB σ).smTable = some recs := hs
      rw [this] at h
      by_cases ha : recs.any (fun r => r.1 == k)
      · simp [ha] at h
      · simp [ha] at h
        rw [← h]
        exact ⟨rfl, rfl⟩

/-! ### Lemmas about the apply loop -/

theorem migrateLoop_retries (body : Int → Mig σ) (w : Int) :
    ∀ (ks : List Int) (db : DB σ), (migrateLoop body w ks db).retries = 0 := by
  intro ks
  induction ks with
  | nil => intro db; rfl
  | cons k ks ih =>
    intro db
    by_cases hk : k ≤ w
    · simp only [migrateLoop, if_pos hk]; exact ih db
    · simp only [migrateLoop, if_neg hk]
      cases happ : applyOne db k (body k) with
      | error e => rfl
      | ok db' => simp

theorem migrateLoop_queryFault (body : Int → Mig σ) (w : Int) :
    ∀ (ks : List Int) (db : DB σ), (migrateLoop body w ks db).db.queryFault = db.queryFault := by
  intro ks
  induction ks with
  | nil => intro db; rfl
  | cons k ks ih =>
    intro db
    by_cases hk : k ≤ w
    · simp only [migrateLoop, if_pos hk]; exact ih db
    · simp only [migrateLoop, if_neg hk]
      cases happ : applyOne db k (body k) with
      | error e => rfl
      | ok db' =>
        simp only []
        rw [ih db', (applyOne_ok_fields happ).1]

theorem migrateLoop_driver (body : Int → Mig σ) (w : Int) :
    ∀ (ks : List Int) (db : DB σ), (migrateLoop body w ks db).db.driver = db.driver := by
  intro ks
  induction ks with
  | nil => intro db; rfl
  | cons k ks ih =>
    intro db
    by_cases hk : k ≤ w
    · simp only [migrateLoop, if_pos hk]; exact ih db
    · simp only [migrateLoop, if_neg hk]
      cases happ : applyOne db k (body k) with
      | error e => rfl
      | ok db' =>
        simp only []
        rw [ih db', (applyOne_ok_fields happ).2]

theorem migrateLoop_skip_all (body : Int → Mig σ) (w : Int) :
    ∀ (ks : List Int) (db : DB σ), (∀ k ∈ ks, k ≤ w) →
      migrateLoop body w ks db = ⟨db, [], 0, none⟩ := by
  intro ks
  induction ks with
  | nil => intro db _; rfl
  | cons k ks ih =>
    intro db h
    have hk : k ≤ w := h k (List.mem_cons_self k ks)
    simp only [migrateLoop, if_pos hk]
    exact ih db (fun x hx => h x (List.mem_cons_of_mem k hx))

theorem migrateLoop_invoked_sublist (body : Int → Mig σ) (w : Int) :
    ∀ (ks : List Int) (db : DB σ), List.Sublist (migrateLoop body w ks db).invoked ks := by
  intro ks
  induction ks with
  | nil => intro db; exact List.Sublist.refl []
  | cons k ks ih =>
    intro db
    by_cases hk : k ≤ w
    · simp only [migrateLoop, if_pos hk]
      exact (ih db).cons k
    · simp only [migrateLoop, if_neg hk]
      cases happ : applyOne db k (body k) with
      | error e =>
        simp only []
        exact (List.nil_sublist ks).cons₂ k
      | ok db' =>
        simp only []
        exact (ih db').cons₂ k

theorem migrateLoop_invoked_gt (body : Int → Mig σ) (w : Int) :
    ∀ (ks : List Int) (db : DB σ), ∀ k ∈ (migrateLoop body w ks db).invoked, w < k := by
  intro ks
  induction ks with
  | nil => intro db k hk; cases hk
  | cons k ks ih =>
    intro db x hx
    by_cases hk : k ≤ w
    · rw [show migrateLoop body w (k :: ks) db = migrateLoop body w ks db by
        simp only [migrateLoop, if_pos hk]] at hx
      exact ih db x hx
    · simp only [migrateLoop, if_neg hk] at hx
      cases happ : applyOne db k (body k) with
      | error e =>
        rw [happ] at hx
        simp at hx
        subst hx
        exact lt_of_not_le hk
      | ok db' =>
        rw [happ] at hx
        simp only [List.mem_cons] at hx
        rcases hx with h | h
        · subst h; exact lt_of_not_le hk
        · exact ih db' x h

theorem migrateLoop_err_none_mem (body : Int → Mig σ) (w : Int) :
    ∀ (ks : List Int) (db : DB σ), (migrateLoop body w ks db).err = none →
      ∀ k ∈ ks, k ≤ w ∨ k ∈ (migrateLoop body w ks db).invoked := by
  intro ks
  induction ks with
  | nil => intro db _ k hk; cases hk
  | cons k ks ih =>
    intro db herr x hx
    by_cases hk : k ≤ w
    · rw [show migrateLoop body w (k :: ks) db = migrateLoop body w ks db by
        simp only [migrateLoop, if_pos hk]] at herr ⊢
      rcases List.mem_cons.mp hx with h | h
      · subst h; exact Or.inl hk
      · exact ih db herr x h
    · simp only [migrateLoop, if_neg hk] at herr ⊢
      cases happ : applyOne db k (body k) with
      | error e =>
        rw [happ] at herr
        simp at herr
      | ok db' =>
        rw [happ] at herr
        simp only [] at herr ⊢
        rcases List.mem_cons.mp hx with h | h
        · subst h; exact Or.inr (List.mem_cons_self x _)
        · rcases ih db' herr x h with h2 | h2
          · exact Or.inl h2
          · exact Or.inr (List.mem_cons_of_mem k h2)

theorem migrateLoop_err_isSome_invoked_ne (body : Int → Mig σ) (w : Int) :
    ∀ (ks : List Int) (db : DB σ), (migrateLoop body w ks db).err.isSome →
      (migrateLoop body w ks db).invoked ≠ [] := by
  intro ks
  induction ks with
  | nil => intro db h; simp [migrateLoop] at h
  | cons k ks ih =>
    intro db
    by_cases hk : k ≤ w
    · rw [show migrateLoop body w (k :: ks) db = migrateLoop body w ks db by
        simp only [migrateLoop, if_pos hk]]
      exact ih db
    · simp only [migrateLoop, if_neg hk]
      cases happ : applyOne db k (body k) with
      | error e => intro _; simp
      | ok db' => intro _; simp

theorem migrateLoop_records (body : Int → Mig σ) (w : Int) :
    ∀ (ks : List Int) (db : DB σ) (recs : List (Int × Nat)),
      db.smTable = some recs →
      ∃ new, (migrateLoop body w ks db).db.smTable = some (recs ++ new) ∧
        new.map Prod.fst = committedOf (migrateLoop body w ks db) ∧
        (∀ p ∈ new, p.1 ∈ ks ∧ w < p.1) := by
  intro ks
  induction ks with
  | nil =>
    intro db recs h
    exact ⟨[], by simpa [migrateLoop] using h, by simp [committedOf, migrateLoop], by simp⟩
  | cons k ks ih =>
    intro db recs h
    by_cases hk : k ≤ w
    · rw [show migrateLoop body w (k :: ks) db = migrateLoop body w ks db by
        simp only [migrateLoop, if_pos hk]]
      obtain ⟨new, h1, h2, h3⟩ := ih db recs h
      exact ⟨new, h1, h2, fun p hp =>
        ⟨List.mem_cons_of_mem k (h3 p hp).1, (h3 p hp).2⟩⟩
    · simp only [migrateLoop, if_neg hk]
      cases happ : applyOne db k (body k) with
      | error e =>
        refine ⟨[], by simpa using h, ?_, by simp⟩
        simp [committedOf]
      | ok db' =>
        obtain ⟨u, hdb'⟩ := applyOne_ok_eq h happ
        have hsm' : db'.smTable = some (recs ++ [(k, db.clock)]) := by rw [hdb']
        obtain ⟨new', h1, h2, h3⟩ := ih db' (recs ++ [(k, db.clock)]) hsm'
        simp only []
        refine ⟨(k, db.clock) :: new', ?_, ?_, ?_⟩
        · rw [h1, List.append_assoc, List.singleton_append]
        · cases hr : (migrateLoop body w ks db').err with
          | none =>
            rw [committedOf] at h2 ⊢
            rw [hr] at h2
            simp only [hr]
            simp only [List.map_cons]
            rw [h2]
          | some e =>
            rw [committedOf] at h2 ⊢
            rw [hr] at h2
            simp only [hr]
            have hne : (migrateLoop body w ks db').invoked ≠ [] :=
              migrateLoop_err_isSome_invoked_ne body w ks db' (by simp [hr])
            obtain ⟨x, xs, hxs⟩ := List.exists_cons_of_ne_nil hne
            rw [hxs] at h2 ⊢
            simp only [List.map_cons]
            rw [List.dropLast_cons₂]
            rw [h2]
        · intro p hp
          rcases List.mem_cons.mp hp with hp | hp
          · subst hp
            exact ⟨List.mem_cons_self k ks, lt_of_not_le hk⟩
          · exact ⟨List.mem_cons_of_mem k (h3 p hp).1, (h3 p hp).2⟩

theorem any_fst_beq_eq_mem {recs : List (Int × Nat)} {k : Int} :
    (recs.any (fun r => r.1 == k)) = true ↔ k ∈ recs.map Prod.fst := by
  simp [List.any_eq_true, List.mem_map, beq_iff_eq]

theorem applyOne_succeeds {db : DB σ} {k : Int} {m : Mig σ} {recs : List (Int × Nat)} {u : σ}
    (h : db.smTable = some recs) (hm : m db.user = .ok u)
    (hk : ¬ k ∈ recs.map Prod.fst) :
    applyOne db k m =
      .ok { db with user := u, smTable := some (recs ++ [(k, db.clock)]),
                    clock := db.clock + 1 } := by
  unfold applyOne
  rw [hm]
  unfold insertRecord
  have hs : ({ db with user := u } : DB σ).smTable = some recs := h
  rw [hs]
  have ha : (recs.any (fun r => r.1 == k)) ≠ true := fun hc =>
    hk (any_fst_beq_eq_mem.mp hc)
  simp only [ha, Bool.false_eq_true, if_false]

theorem migrateLoop_all_ok (body : Int → Mig σ) (w : Int)
    (hb : ∀ k u, ∃ v, body k u = .ok v) :
    ∀ (ks : List Int) (db : DB σ) (recs : List (Int × Nat)),
      db.smTable = some recs →
      (∀ k ∈ ks, ¬ k ∈ recs.map Prod.fst) →
      ks.Nodup →
      (migrateLoop body w ks db).err = none ∧
        (migrateLoop body w ks db).invoked = ks.filter (fun k => decide (w < k)) := by
  intro ks
  induction ks with
  | nil => intro db recs _ _ _; exact ⟨rfl, rfl⟩
  | cons k ks ih =>
    intro db recs h hnotin hnd
    by_cases hk : k ≤ w
    · rw [show migrateLoop body w (k :: ks) db = migrateLoop body w ks db by
        simp only [migrateLoop, if_pos hk]]
      obtain ⟨he, hi⟩ := ih db recs h
        (fun x hx => hnotin x (List.mem_cons_of_mem k hx)) (List.nodup_cons.mp hnd).2
      refine ⟨he, ?_⟩
      rw [hi, List.filter_cons]
      have : decide (w < k) = false := by simp [not_lt.mpr hk]
      rw [this]
      simp
    · simp only [migrateLoop, if_neg hk]
      obtain ⟨u, hu⟩ := hb k db.user
      have happ := applyOne_succeeds h hu (hnotin k (List.mem_cons_self k ks))
      rw [happ]
      simp only []
      have hsm2 : ({ db with user := u, smTable := some (recs ++ [(k, db.clock)]), clock := db.clock + 1 } : DB σ).smTable = some (recs ++ [(k, db.clock)]) := rfl
      have hnotin2 : ∀ x ∈ ks, ¬ x ∈ (recs ++ [(k, db.clock)]).map Prod.fst := by
        intro x hx hmem
        rw [List.map_append] at hmem
        rcases List.mem_append.mp hmem with hmem | hmem
        · exact hnotin x (List.mem_cons_of_mem k hx) hmem
        · simp at hmem
          subst hmem
          exact (List.nodup_cons.mp hnd).1 hx
      obtain ⟨he, hi⟩ := ih _ _ hsm2 hnotin2 (List.nodup_cons.mp hnd).2
      refine ⟨he, ?_⟩
      rw [hi, List.filter_cons]
      have : decide (w < k) = true := by simp [lt_of_not_le hk]
      rw [this]
      simp

/-! ### Lemmas about `migrateFuel` -/

theorem selectWatermark_ok_of_none_fault {db : DB σ} {recs : List (Int × Nat)}
    (hf : db.queryFault = none) (hs : db.smTable = some recs) :
    selectWatermark db = .ok (maxVersion recs) := by
  unfold selectWatermark queryMaxVersion
  rw [hf, hs]

theorem migrateFuel_queryFault (keys : List Int) (body : Int → Mig σ) :
    ∀ (fuel : Nat) (db : DB σ),
      (migrateFuel fuel db keys body).db.queryFault = db.queryFault := by
  intro fuel
  induction fuel with
  | zero => intro db; rfl
  | succ n ih =>
    intro db
    simp only [migrateFuel]
    cases hw : selectWatermark db with
    | ok v => exact migrateLoop_queryFault body v (sortInts keys) db
    | error e =>
      by_cases he : e.is .missingSchemaMigration
      · simp only [he, if_true]
        cases hinit : initializeSchemaMigrations db with
        | error e2 => rfl
        | ok db' =>
          simp only []
          rw [ih db', (init_ok_eq hinit).2]
      · simp only [he, Bool.false_eq_true, if_false]

theorem migrateFuel_driver (keys : List Int) (body : Int → Mig σ) :
    ∀ (fuel : Nat) (db : DB σ),
      (migrateFuel fuel db keys body).db.driver = db.driver := by
  intro fuel
  induction fuel with
  | zero => intro db; rfl
  | succ n ih =>
    intro db
    simp only [migrateFuel]
    cases hw : selectWatermark db with
    | ok v => exact migrateLoop_driver body v (sortInts keys) db
    | error e =>
      by_cases he : e.is .missingSchemaMigration
      · simp only [he, if_true]
        cases hinit : initializeSchemaMigrations db with
        | error e2 => rfl
        | ok db' =>
          simp only []
          rw [ih db', (init_ok_eq hinit).2]
      · simp only [he, Bool.false_eq_true, if_false]

theorem migrateFuel_one_of_smTable_some {db : DB σ} {recs : List (Int × Nat)}
    (keys : List Int) (body : Int → Mig σ) (h : db.smTable = some recs) (n : Nat) :
    migrateFuel (n + 1) db keys body = migrateFuel 1 db keys body := by
  simp only [migrateFuel]
  cases hw : selectWatermark db with
  | ok v => rfl
  | error e =>
    by_cases he : e.is .missingSchemaMigration
    · simp only [he, if_true]
      rw [init_some_err h]
    · simp only [he, Bool.false_eq_true, if_false]

theorem migrateFuel_fuel_irrelevant (keys : List Int) (body : Int → Mig σ)
    (db : DB σ) (n : Nat) :
    migrateFuel (n + 2) db keys body = migrateFuel 2 db keys body := by
  conv_lhs => rw [migrateFuel]
  conv_rhs => rw [migrateFuel]
  cases hw : selectWatermark db with
  | ok v => rfl
  | error e =>
    by_cases he : e.is .missingSchemaMigration
    · simp only [he, if_true]
      cases hinit : initializeSchemaMigrations db with
      | error e2 => rfl
      | ok db' =>
        simp only []
        have hsm' : db'.smTable = some [] := by rw [(init_ok_eq hinit).2]
        rw [migrateFuel_one_of_smTable_some keys body hsm' n]
    · simp only [he, Bool.false_eq_true, if_false]

theorem migrateFuel_one_retries_zero {db : DB σ} {recs : List (Int × Nat)}
    (keys : List Int) (body : Int → Mig σ) (h : db.smTable = some recs) :
    (migrateFuel 1 db keys body).retries = 0 := by
  simp only [migrateFuel]
  cases hw : selectWatermark db with
  | ok v => exact migrateLoop_retries body v (sortInts keys) db
  | error e =>
    by_cases he : e.is .missingSchemaMigration
    · simp only [he, if_true]
      rw [init_some_err h]
    · simp only [he, Bool.false_eq_true, if_false]

theorem migrateFuel_invoked_sublist (keys : List Int) (body : Int → Mig σ) :
    ∀ (fuel : Nat) (db : DB σ),
      List.Sublist (migrateFuel fuel db keys body).invoked (sortInts keys) := by
  intro fuel
  induction fuel with
  | zero => intro db; exact List.nil_sublist _
  | succ n ih =>
    intro db
    simp only [migrateFuel]
    cases hw : selectWatermark db with
    | ok v => exact migrateLoop_invoked_sublist body v (sortInts keys) db
    | error e =>
      by_cases he : e.is .missingSchemaMigration
      · simp only [he, if_true]
        cases hinit : initializeSchemaMigrations db with
        | error e2 => exact List.nil_sublist _
        | ok db' => exact ih db'
      · simp only [he, Bool.false_eq_true, if_false]
        exact List.nil_sublist _

theorem selectWatermark_ok_inv {db : DB σ} {w : Int} (hf : db.queryFault = none)
    (h : selectWatermark db = .ok w) :
    ∃ recs, db.smTable = some recs ∧ w = maxVersion recs := by
  simp only [selectWatermark, queryMaxVersion, hf] at h
  cases hs : db.smTable with
  | none =>
    rw [hs] at h
    cases hd : db.driver <;>
      simp [hd, undefinedTableError, Err.is, isUndefinedTable, Err.asPq, Err.asSqlite,
        Err.message] at h
  | some recs =>
    rw [hs] at h
    simp at h
    exact ⟨recs, rfl, h.symm⟩

theorem committedOf_err_none {r : RunResult σ} (h : r.err = none) :
    committedOf r = r.invoked := by
  rw [committedOf, h]

theorem committedOf_err_some {r : RunResult σ} {e : Err} (h : r.err = some e) :
    committedOf r = r.invoked.dropLast := by
  rw [committedOf, h]

theorem migrateFuel_success_watermark (keys : List Int) (body : Int → Mig σ) :
    ∀ (fuel : Nat) (db : DB σ), db.queryFault = none →
      (migrateFuel fuel db keys body).err = none →
      ∃ recs', (migrateFuel fuel db keys body).db.smTable = some recs' ∧
        ∀ k ∈ keys, k ≤ maxVersion recs' := by
  intro fuel
  induction fuel with
  | zero => intro db _ herr; simp [migrateFuel] at herr
  | succ n ih =>
    intro db hf herr
    cases hw : selectWatermark db with
    | ok v =>
      simp only [migrateFuel, hw] at herr ⊢
      obtain ⟨recs, hs, hv⟩ := selectWatermark_ok_inv hf hw
      obtain ⟨new, h1, h2, h3⟩ := migrateLoop_records body v (sortInts keys) db recs hs
      rw [committedOf_err_none herr] at h2
      refine ⟨recs ++ new, h1, ?_⟩
      intro k hk
      have hk2 : k ∈ sortInts keys := by
        unfold sortInts
        exact (List.mem_insertionSort (· ≤ ·)).mpr hk
      rcases migrateLoop_err_none_mem body v (sortInts keys) db herr k hk2 with h4 | h4
      · rcases List.eq_nil_or_concat recs with hrecs | hcat
        · subst hrecs
          have hv1 : v = -1 := by rw [hv]; rfl
          simp only [List.nil_append]
          rcases maxVersion_ge_of_forall_gt (fun p hp => (h3 p hp).2) with hnew | hnew
          · subst hnew
            rw [show maxVersion [] = -1 from rfl]
            rw [hv1] at h4
            exact h4
          · rw [hv1] at h4 hnew
            exact le_trans h4 (le_of_lt hnew)
        · have hne : recs ≠ [] := by
            rintro rfl
            obtain ⟨l, a, hl⟩ := hcat
            exact absurd hl.symm (List.concat_ne_nil a l)
          calc k ≤ v := h4
          _ = maxVersion recs := hv
          _ ≤ maxVersion (recs ++ new) := maxVersion_append_left new hne
      · rw [← h2] at h4
        obtain ⟨p, hp, hpk⟩ := List.mem_map.mp h4
        rw [← hpk]
        exact maxVersion_mem_le (List.mem_append_right recs hp)
    | error e =>
      by_cases he : e.is .missingSchemaMigration
      · simp only [migrateFuel, hw, he, if_true] at herr ⊢
        cases hinit : initializeSchemaMigrations db with
        | error e2 => rw [hinit] at herr; simp at herr
        | ok db' =>
          rw [hinit] at herr
          simp only [] at herr ⊢
          have hf2 : db'.queryFault = none := by rw [(init_ok_eq hinit).2]; exact hf
          exact ih db' hf2 herr
      · simp only [migrateFuel, hw, he, Bool.false_eq_true, if_false] at herr
        exact absurd herr (Option.some_ne_none e)

theorem applyOne_body_error {db : DB σ} {k : Int} {m : Mig σ} {e : Err}
    (h : m db.user = .error e) : applyOne db k m = .error e := by
  unfold applyOne
  rw [h]

theorem migrateLoop_append_err_none (body : Int → Mig σ) (w : Int) :
    ∀ (l1 l2 : List Int) (db : DB σ),
      (migrateLoop body w l1 db).err = none →
      migrateLoop body w (l1 ++ l2) db =
        ⟨(migrateLoop body w l2 (migrateLoop body w l1 db).db).db,
         (migrateLoop body w l1 db).invoked ++
           (migrateLoop body w l2 (migrateLoop body w l1 db).db).invoked,
         0,
         (migrateLoop body w l2 (migrateLoop body w l1 db).db).err⟩ := by
  intro l1
  induction l1 with
  | nil =>
    intro l2 db _
    show migrateLoop body w l2 db = _
    have h0 : (migrateLoop body w l2 db).retries = 0 := migrateLoop_retries body w l2 db
    simp only [migrateLoop, List.nil_append]
    rw [← h0]
  | cons k l1 ih =>
    intro l2 db herr
    by_cases hk : k ≤ w
    · have hstep : ∀ (ls : List Int), migrateLoop body w (k :: ls) db = migrateLoop body w ls db := by
        intro ls; simp only [migrateLoop, if_pos hk]
      rw [show (k :: l1) ++ l2 = k :: (l1 ++ l2) from rfl, hstep (l1 ++ l2), hstep l1]
      rw [hstep l1] at herr
      exact ih l2 db herr
    · rw [show (k :: l1) ++ l2 = k :: (l1 ++ l2) from rfl]
      simp only [migrateLoop, if_neg hk] at herr ⊢
      cases happ : applyOne db k (body k) with
      | error e =>
        rw [happ] at herr
        simp at herr
      | ok db' =>
        rw [happ] at herr
        simp only [] at herr ⊢
        rw [ih l2 db' herr]
        simp
  

theorem migrateLoop_mem_invoked_of_min (body : Int → Mig σ) (w : Int) :
    ∀ (ks : List Int) (db : DB σ) (v : Int),
      List.Sorted (· ≤ ·) ks → v ∈ ks → w < v →
      (∀ k ∈ ks, k ≤ w ∨ v ≤ k) →
      v ∈ (migrateLoop body w ks db).invoked := by
  intro ks
  induction ks with
  | nil => intro db v _ hv _ _; cases hv
  | cons k ks ih =>
    intro db v hsort hv hwv hcover
    by_cases hk : k ≤ w
    · rw [show migrateLoop body w (k :: ks) db = migrateLoop body w ks db by
        simp only [migrateLoop, if_pos hk]]
      have hvk : v ≠ k := fun h => absurd (h ▸ hwv) (not_lt.mpr hk)
      have hv2 : v ∈ ks := by
        rcases List.mem_cons.mp hv with h | h
        · exact absurd h hvk
        · exact h
      exact ih db v hsort.of_cons hv2 hwv
        (fun x hx => hcover x (List.mem_cons_of_mem k hx))
    · have hvk : v = k := by
        rcases List.mem_cons.mp hv with h | h
        · exact h
        · have h1 : k ≤ v := List.rel_of_sorted_cons hsort v h
          have h2 : v ≤ k := by
            rcases hcover k (List.mem_cons_self k ks) with h3 | h3
            · exact absurd h3 hk
            · exact h3
          exact le_antisymm h2 h1
    
      subst hvk
      simp only [migrateLoop, if_neg hk]
      cases happ : applyOne db v (body v) with
      | error e => simp
      | ok db2 => simp

theorem is_missing_false_of_asPq : ∀ (e : Err), e.asPq.isSome →
    e.is .missingSchemaMigration = false := by
  intro e
  induction e with
  | wrapped ctx inner ih =>
    intro h
    simp only [Err.asPq] at h
    simp only [Err.is, ih h, Bool.or_false]
    simp [beq_iff_eq]
  | pq code msg => intro _; rfl
  | sqlite msg => intro h; simp [Err.asPq] at h
  | generic msg => intro h; simp [Err.asPq] at h
  | noRows => intro h; simp [Err.asPq] at h
  | missingSchemaMigration => intro h; simp [Err.asPq] at h
  | unsupportedDriver => intro h; simp [Err.asPq] at h
  | constraintViolation v => intro h; simp [Err.asPq] at h

theorem is_missing_false_of_asSqlite : ∀ (e : Err), e.asSqlite.isSome →
    e.is .missingSchemaMigration = false := by
  intro e
  induction e with
  | wrapped ctx inner ih =>
    intro h
    simp only [Err.asSqlite] at h
    simp only [Err.is, ih h, Bool.or_false]
    simp [beq_iff_eq]
  | pq code msg => intro h; simp [Err.asSqlite] at h
  | sqlite msg => intro _; rfl
  | generic msg => intro h; simp [Err.asSqlite] at h
  | noRows => intro h; simp [Err.asSqlite] at h
  | missingSchemaMigration => intro h; simp [Err.asSqlite] at h
  | unsupportedDriver => intro h; simp [Err.asSqlite] at h
  | constraintViolation v => intro h; simp [Err.asSqlite] at h

theorem is_missing_false_of_classified {e : Err} {b : Bool}
    (h : isUndefinedTable e = .ok b) : e.is .missingSchemaMigration = false := by
  unfold isUndefinedTable at h
  cases hpq : e.asPq with
  | some x => exact is_missing_false_of_asPq e (by rw [hpq]; rfl)
  | none =>
    rw [hpq] at h
    cases hsq : e.asSqlite with
    | some y => exact is_missing_false_of_asSqlite e (by rw [hsq]; rfl)
    | none => rw [hsq] at h; exact absurd h (by simp)

/-- Reduction of `Migrate` when the watermark read fails with an error
that is not the missing-store sentinel: the error is returned as is. -/
theorem migrate_watermark_error {db : DB σ} {e : Err} (keys : List Int)
    (body : Int → Mig σ) (hw : selectWatermark db = .error e)
    (he : e.is .missingSchemaMigration = false) :
    Migrate db keys body = ⟨db, [], 0, some e⟩ := by
  simp only [Migrate, migrateFuel, hw, he, Bool.false_eq_true, if_false]

theorem selectWatermark_missing_of_no_table {db : DB σ}
    (hf : db.queryFault = none) (hs : db.smTable = none)
    (hd : db.driver = .postgres ∨ db.driver = .sqlite) :
    selectWatermark db = .error .missingSchemaMigration := by
  simp only [selectWatermark, queryMaxVersion, hf, hs]
  rcases hd with hd | hd <;> rw [hd] <;> rfl

/-! ### Lemmas about `sortInts` -/

theorem sortInts_sorted (keys : List Int) : List.Sorted (· ≤ ·) (sortInts keys) :=
  List.sorted_insertionSort (· ≤ ·) keys

theorem sortInts_perm (keys : List Int) : List.Perm (sortInts keys) keys :=
  List.perm_insertionSort (· ≤ ·) keys

theorem sortInts_nodup {keys : List Int} (h : keys.Nodup) : (sortInts keys).Nodup :=
  ((sortInts_perm keys).nodup_iff).mpr h

theorem sortInts_sorted_lt {keys : List Int} (h : keys.Nodup) :
    List.Sorted (· < ·) (sortInts keys) := by
  have h1 := sortInts_sorted keys
  have h2 : (sortInts keys).Nodup := sortInts_nodup h
  exact List.Pairwise.imp₂ (fun a b hle hne => lt_of_le_of_ne hle hne) h1 h2

theorem sortInts_eq_of_perm {keys keys2 : List Int} (h : List.Perm keys keys2) :
    sortInts keys = sortInts keys2 :=
  List.eq_of_perm_of_sorted
    (((sortInts_perm keys).trans h).trans (sortInts_perm keys2).symm)
    (sortInts_sorted keys) (sortInts_sorted keys2)

theorem migrateFuel_sortInts_congr {keys keys2 : List Int} (body : Int → Mig σ)
    (h : sortInts keys = sortInts keys2) :
    ∀ (fuel : Nat) (db : DB σ),
      migrateFuel fuel db keys body = migrateFuel fuel db keys2 body := by
  intro fuel
  induction fuel with
  | zero => intro db; rfl
  | succ n ih =>
    intro db
    simp only [migrateFuel]
    cases hw : selectWatermark db with
    | ok v => rw [h]
    | error e =>
      by_cases he : e.is .missingSchemaMigration
      · simp only [he, if_true]
        cases hinit : initializeSchemaMigrations db with
        | error e2 => rfl
        | ok db2 => simp only []; rw [ih db2]
      · simp only [he, Bool.false_eq_true, if_false]

/-- Single unfolding step of `migrateFuel`, keeping the recursive call
abstract. -/
theorem migrateFuel_succ_eq (fuel : Nat) (db : DB σ) (keys : List Int)
    (body : Int → Mig σ) :
    migrateFuel (fuel + 1) db keys body =
      match selectWatermark db with
      | .error e =>
        if e.is .missingSchemaMigration then
          match initializeSchemaMigrations db with
          | .error e2 =>
            ⟨db, [], 0, some (.wrapped "failed to initialize schema migrations" e2)⟩
          | .ok db' =>
            let r := migrateFuel fuel db' keys body
            { r with retries := r.retries + 1 }
        else ⟨db, [], 0, some e⟩
      | .ok maxApplied => migrateLoop body maxApplied (sortInts keys) db := rfl

/-! ### Claim theorems -/

/-- C7: for every watermark-read failure whose underlying error cannot be
classified by the undefined-table detection (it is neither a recognized
PostgreSQL nor SQLite error), `Migrate` returns the distinct fatal
"unsupported driver" error (wrapped "failed to parse error") rather than
classifying the failure as a generic one, and leaves the database
unchanged. -/
theorem claim_C7 {σ : Type} (db : DB σ) (keys : List Int) (body : Int → Mig σ)
    (e : Err) (hq : queryMaxVersion db = .error e) (hnr : e.is .noRows = false)
    (hpq : e.asPq = none) (hsq : e.asSqlite = none) :
    Migrate db keys body =
      ⟨db, [], 0, some (.wrapped "failed to parse error" .unsupportedDriver)⟩ := by
  have hcl : isUndefinedTable e = .error .unsupportedDriver := by
    unfold isUndefinedTable
    rw [hpq, hsq]
  have hw : selectWatermark db =
      .error (.wrapped "failed to parse error" .unsupportedDriver) := by
    simp only [selectWatermark, hq, hnr, Bool.false_eq_true, if_false, hcl]
  exact migrate_watermark_error keys body hw (by decide)

/-- C7 witness: an unrecognized driver with the bookkeeping table absent
produces an unclassifiable error, and `Migrate` returns the
"unsupported driver" error. -/
theorem claim_C7_witness :
    queryMaxVersion (⟨.other, none, 0, none, 0⟩ : DB Nat) =
        .error (.generic "no such table: schema_migrations") ∧
      Migrate (⟨.other, none, 0, none, 0⟩ : DB Nat) [1] (fun _ u => .ok u) =
        ⟨⟨.other, none, 0, none, 0⟩, [], 0,
         some (.wrapped "failed to parse error" .unsupportedDriver)⟩ :=
  ⟨by decide,
   claim_C7 (⟨.other, none, 0, none, 0⟩ : DB Nat) [1] (fun _ u => .ok u)
     (.generic "no such table: schema_migrations") (by decide) (by decide)
     (by decide) (by decide)⟩

/-- C8 counterexample: a watermark-query failure that is not the
undefined-table condition but is also not a recognized driver error (a
plain connection error) is returned wrapped "failed to parse error",
not wrapped "failed to select max applied migration" as the claim
states. -/
theorem claim_C8_cex :
    (Migrate (⟨.postgres, some [], 0, some (.generic "network is down"), 0⟩ : DB Nat)
        [] (fun _ u => .ok u)).err =
      some (.wrapped "failed to parse error" .unsupportedDriver) ∧
    (Migrate (⟨.postgres, some [], 0, some (.generic "network is down"), 0⟩ : DB Nat)
        [] (fun _ u => .ok u)).err ≠
      some (.wrapped "failed to select max applied migration"
        (.generic "network is down")) := by
  decide

/-- C8 (amended): for every failure of the watermark query that the
error classifier recognizes as a driver error (PostgreSQL or SQLite)
and that is not the undefined-table condition, `Migrate` rolls back the
read transaction (the database is unchanged) and returns the error
wrapped with "failed to select max applied migration". -/
theorem claim_C8 {σ : Type} (db : DB σ) (keys : List Int) (body : Int → Mig σ)
    (e : Err) (hq : queryMaxVersion db = .error e) (hnr : e.is .noRows = false)
    (hcl : isUndefinedTable e = .ok false) :
    Migrate db keys body =
      ⟨db, [], 0, some (.wrapped "failed to select max applied migration" e)⟩ := by
  have hw : selectWatermark db =
      .error (.wrapped "failed to select max applied migration" e) := by
    simp only [selectWatermark, hq, hnr, Bool.false_eq_true, if_false, hcl]
  have hm : (Err.wrapped "failed to select max applied migration" e).is
      .missingSchemaMigration = false := by
    simp [Err.is, is_missing_false_of_classified hcl, beq_iff_eq]
  exact migrate_watermark_error keys body hw hm

/-- C8 witness: a PostgreSQL error with a code other than
undefined_table is wrapped "failed to select max applied migration". -/
theorem claim_C8_witness :
    isUndefinedTable (.pq "connection_failure" "conn down") = .ok false ∧
      Migrate (⟨.postgres, some [], 0, some (.pq "connection_failure" "conn down"), 0⟩ : DB Nat)
          [3] (fun _ u => .ok u) =
        ⟨⟨.postgres, some [], 0, some (.pq "connection_failure" "conn down"), 0⟩, [], 0,
         some (.wrapped "failed to select max applied migration"
           (.pq "connection_failure" "conn down"))⟩ :=
  ⟨by decide,
   claim_C8 (⟨.postgres, some [], 0, some (.pq "connection_failure" "conn down"), 0⟩ : DB Nat)
     [3] (fun _ u => .ok u) (.pq "connection_failure" "conn down")
     (by decide) (by decide) (by decide)⟩

/-- C5: for every invocation, at most one missing-store retry is
performed; and if the watermark read reports the missing-store sentinel
but initializing the bookkeeping store fails, `Migrate` returns that
failure wrapped "failed to initialize schema migrations" without
retrying (zero retries, no bodies invoked, database unchanged). -/
theorem claim_C5 {σ : Type} (db : DB σ) (keys : List Int) (body : Int → Mig σ)
    (e2 : Err) :
    (Migrate db keys body).retries ≤ 1 ∧
      (selectWatermark db = .error .missingSchemaMigration →
        initializeSchemaMigrations db = .error e2 →
        Migrate db keys body =
          ⟨db, [], 0, some (.wrapped "failed to initialize schema migrations" e2)⟩) := by
  constructor
  · show (migrateFuel (1 + 1) db keys body).retries ≤ 1
    rw [migrateFuel_succ_eq]
    cases hw : selectWatermark db with
    | ok v =>
      simp only []
      rw [migrateLoop_retries]
      exact Nat.zero_le 1
    | error e =>
      by_cases he : e.is .missingSchemaMigration
      · simp only [he, if_true]
        cases hinit : initializeSchemaMigrations db with
        | error e3 => simp
        | ok db2 =>
          try rw [hinit]
          simp only []
          have h0 : (migrateFuel 1 db2 keys body).retries = 0 :=
            migrateFuel_one_retries_zero keys body
              (show db2.smTable = some [] by rw [(init_ok_eq hinit).2])
          simp [h0]
      · simp only [he, Bool.false_eq_true, if_false]
        exact Nat.zero_le 1
  · intro hw hinit
    have hmiss : (Err.missingSchemaMigration).is .missingSchemaMigration = true := by decide
    show migrateFuel (1 + 1) db keys body = _
    rw [migrateFuel_succ_eq, hw]
    simp only [hmiss, if_true, hinit]

/-- C5 witness: with the table present but the watermark query failing
with an injected undefined_table signal, initialization fails (the
table already exists) and the wrapped initialization error is returned
with zero retries. -/
theorem claim_C5_witness :
    (Migrate (⟨.postgres, some [], 0, some (.pq "undefined_table" "phantom"), 0⟩ : DB Nat)
        [1] (fun _ u => .ok u)).retries ≤ 1 ∧
      Migrate (⟨.postgres, some [], 0, some (.pq "undefined_table" "phantom"), 0⟩ : DB Nat)
          [1] (fun _ u => .ok u) =
        ⟨⟨.postgres, some [], 0, some (.pq "undefined_table" "phantom"), 0⟩, [], 0,
         some (.wrapped "failed to initialize schema migrations"
           (.pq "duplicate_table" "relation schema_migrations already exists"))⟩ :=
  ⟨(claim_C5 (⟨.postgres, some [], 0, some (.pq "undefined_table" "phantom"), 0⟩ : DB Nat)
      [1] (fun _ u => .ok u)
      (.pq "duplicate_table" "relation schema_migrations already exists")).1,
   (claim_C5 (⟨.postgres, some [], 0, some (.pq "undefined_table" "phantom"), 0⟩ : DB Nat)
      [1] (fun _ u => .ok u)
      (.pq "duplicate_table" "relation schema_migrations already exists")).2
     (by decide) (by decide)⟩

/-- C2: migration bodies are invoked in strictly ascending version
order, and the result of `Migrate` is independent of the iteration
order of the input mapping (any permutation of the key list gives the
identical run). -/
theorem claim_C2 {σ : Type} (db : DB σ) (keys keys2 : List Int)
    (body : Int → Mig σ) (hnd : keys.Nodup) (hperm : List.Perm keys keys2) :
    List.Sorted (· < ·) (Migrate db keys body).invoked ∧
      Migrate db keys body = Migrate db keys2 body := by
  constructor
  · have hsub := migrateFuel_invoked_sublist keys body 2 db
    exact List.Pairwise.sublist hsub (sortInts_sorted_lt hnd)
  · exact migrateFuel_sortInts_congr body (sortInts_eq_of_perm hperm) 2 db

/-- C2 witness: keys supplied as [2, 1] and as [1, 2] produce the same
run, with bodies invoked in ascending order. -/
theorem claim_C2_witness :
    List.Sorted (· < ·)
        (Migrate (⟨.sqlite, some [], 0, none, 0⟩ : DB Nat) [2, 1]
          (fun _ u => .ok (u + 1))).invoked ∧
      Migrate (⟨.sqlite, some [], 0, none, 0⟩ : DB Nat) [2, 1] (fun _ u => .ok (u + 1)) =
        Migrate (⟨.sqlite, some [], 0, none, 0⟩ : DB Nat) [1, 2] (fun _ u => .ok (u + 1)) :=
  claim_C2 (⟨.sqlite, some [], 0, none, 0⟩ : DB Nat) [2, 1] [1, 2]
    (fun _ u => .ok (u + 1)) (by decide) (by decide)

/-- One unfolding step of `Migrate` (fuel 2), keeping the retry's
recursive call abstract. -/
theorem Migrate_eq_step (db : DB σ) (keys : List Int) (body : Int → Mig σ) :
    Migrate db keys body =
      match selectWatermark db with
      | .error e =>
        if e.is .missingSchemaMigration then
          match initializeSchemaMigrations db with
          | .error e2 =>
            ⟨db, [], 0, some (.wrapped "failed to initialize schema migrations" e2)⟩
          | .ok db' =>
            let r := migrateFuel 1 db' keys body
            { r with retries := r.retries + 1 }
        else ⟨db, [], 0, some e⟩
      | .ok maxApplied => migrateLoop body maxApplied (sortInts keys) db := rfl

/-- C4: starting from any state in which the bookkeeping table holds the
records `recs`, a run of `Migrate` leaves the table holding `recs ++ new`
(existing records are never updated or deleted), where the versions of
the appended records are exactly the versions whose transaction (body
plus record insertion) committed in this run: every invoked version
except, when the run failed, the last invoked one, whose transaction
rolled back leaving no partial record. -/
theorem claim_C4 {σ : Type} (db : DB σ) (keys : List Int) (body : Int → Mig σ)
    (recs : List (Int × Nat)) (hs : db.smTable = some recs) :
    ∃ new, (Migrate db keys body).db.smTable = some (recs ++ new) ∧
      new.map Prod.fst = committedOf (Migrate db keys body) := by
  rw [Migrate_eq_step]
  cases hw : selectWatermark db with
  | ok v =>
    simp only []
    obtain ⟨new, h1, h2, _⟩ := migrateLoop_records body v (sortInts keys) db recs hs
    exact ⟨new, h1, h2⟩
  | error e =>
    by_cases he : e.is .missingSchemaMigration
    · simp only [he, if_true]
      rw [init_some_err hs]
      exact ⟨[], by simpa using hs, by simp [committedOf]⟩
    · simp only [he, Bool.false_eq_true, if_false]
      exact ⟨[], by simpa using hs, by simp [committedOf]⟩

/-- C4 witness: with records for versions 1 and 2 present and a run in
which version 3 commits and version 4 fails, the table afterwards holds
exactly the old records plus a record for 3. -/
theorem claim_C4_witness :
    ∃ new,
      (Migrate (⟨.sqlite, some [(1, 0), (2, 1)], 5, none, 0⟩ : DB Nat) [3, 4]
          (fun k u => if k == 4 then .error (.generic "boom") else .ok (u + 1))).db.smTable =
        some ([(1, 0), (2, 1)] ++ new) ∧
      new.map Prod.fst =
        committedOf
          (Migrate (⟨.sqlite, some [(1, 0), (2, 1)], 5, none, 0⟩ : DB Nat) [3, 4]
            (fun k u => if k == 4 then .error (.generic "boom") else .ok (u + 1))) :=
  claim_C4 (⟨.sqlite, some [(1, 0), (2, 1)], 5, none, 0⟩ : DB Nat) [3, 4]
    (fun k u => if k == 4 then .error (.generic "boom") else .ok (u + 1))
    [(1, 0), (2, 1)] rfl

/-- C3 counterexample: with a failing migration set, the first
invocation errors and the second invocation invokes the failing body
again (one body executed, not zero), refuting the unconditional claim. -/
theorem claim_C3_cex :
    (Migrate (⟨.sqlite, some [], 0, none, 0⟩ : DB Nat) [1]
        (fun _ _ => .error (.generic "boom"))).err = some (.generic "boom") ∧
      (Migrate (Migrate (⟨.sqlite, some [], 0, none, 0⟩ : DB Nat) [1]
            (fun _ _ => .error (.generic "boom"))).db [1]
          (fun _ _ => .error (.generic "boom"))).invoked = [1] := by
  decide

/-- C3 (amended): if the first invocation of `Migrate` returns success
(and the underlying watermark query is not faulted), then every supplied
version is at or below the recorded watermark afterwards, and a second
invocation with the same migration set returns the identical database
state, invokes zero migration bodies, and succeeds. -/
theorem claim_C3 {σ : Type} (db : DB σ) (keys : List Int) (body : Int → Mig σ)
    (hf : db.queryFault = none) (hsucc : (Migrate db keys body).err = none) :
    (∃ recs2, (Migrate db keys body).db.smTable = some recs2 ∧
        ∀ k ∈ keys, k ≤ maxVersion recs2) ∧
      Migrate (Migrate db keys body).db keys body =
        ⟨(Migrate db keys body).db, [], 0, none⟩ := by
  obtain ⟨recs2, hsm2, hmax⟩ := migrateFuel_success_watermark keys body 2 db hf hsucc
  have hf2 : (Migrate db keys body).db.queryFault = none := by
    rw [show (Migrate db keys body).db.queryFault = db.queryFault from
      migrateFuel_queryFault keys body 2 db, hf]
  refine ⟨⟨recs2, hsm2, hmax⟩, ?_⟩
  have hw2 : selectWatermark (Migrate db keys body).db = .ok (maxVersion recs2) :=
    selectWatermark_ok_of_none_fault hf2 hsm2
  rw [Migrate_eq_step ((Migrate db keys body).db) keys body, hw2]
  exact migrateLoop_skip_all body (maxVersion recs2) (sortInts keys) _
    (fun k hk => hmax k ((sortInts_perm keys).mem_iff.mp hk))

/-- C3 witness: after a successful run applying versions 1 and 2, the
second run with the same set changes nothing and invokes no bodies. -/
theorem claim_C3_witness :
    (∃ recs2,
        (Migrate (⟨.sqlite, some [], 0, none, 0⟩ : DB Nat) [1, 2]
            (fun _ u => .ok (u + 1))).db.smTable = some recs2 ∧
          ∀ k ∈ [1, 2], k ≤ maxVersion recs2) ∧
      Migrate (Migrate (⟨.sqlite, some [], 0, none, 0⟩ : DB Nat) [1, 2]
            (fun _ u => .ok (u + 1))).db [1, 2] (fun _ u => .ok (u + 1)) =
        ⟨(Migrate (⟨.sqlite, some [], 0, none, 0⟩ : DB Nat) [1, 2]
            (fun _ u => .ok (u + 1))).db, [], 0, none⟩ :=
  claim_C3 (⟨.sqlite, some [], 0, none, 0⟩ : DB Nat) [1, 2] (fun _ u => .ok (u + 1))
    rfl (by decide)

/-- C6 counterexample: against a database with no bookkeeping table, a
migration set containing a failing body makes `Migrate` return an error,
refuting the unconditional "returns success". -/
theorem claim_C6_cex :
    (Migrate (⟨.sqlite, none, 0, none, 0⟩ : DB Nat) [1]
        (fun _ _ => .error (.generic "boom"))).err = some (.generic "boom") := by
  decide

/-- C6 (amended): against a recognized backend whose bookkeeping table
does not exist, with every supplied version above the fresh-store
sentinel -1, distinct versions, and every body succeeding, `Migrate`
returns success, creates the `schema_migrations` table, invokes every
supplied migration in ascending order, and records exactly the supplied
versions. -/
theorem claim_C6 {σ : Type} (db : DB σ) (keys : List Int) (body : Int → Mig σ)
    (hs : db.smTable = none) (hf : db.queryFault = none)
    (hd : db.driver = .postgres ∨ db.driver = .sqlite)
    (hb : ∀ k u, ∃ u2, body k u = .ok u2)
    (hgt : ∀ k ∈ keys, -1 < k) (hnd : keys.Nodup) :
    (Migrate db keys body).err = none ∧
      (Migrate db keys body).invoked = sortInts keys ∧
      ∃ new, (Migrate db keys body).db.smTable = some new ∧
        new.map Prod.fst = sortInts keys := by
  have hw := selectWatermark_missing_of_no_table hf hs hd
  have hinit : initializeSchemaMigrations db = .ok { db with smTable := some [] } := by
    unfold initializeSchemaMigrations
    rw [hs]
  rw [Migrate_eq_step, hw]
  simp only [show (Err.missingSchemaMigration).is .missingSchemaMigration = true from
    by decide, if_true, hinit]
  have hs2 : ({ db with smTable := some [] } : DB σ).smTable = some [] := rfl
  have hw2 : selectWatermark ({ db with smTable := some [] } : DB σ) =
      .ok (maxVersion []) :=
    selectWatermark_ok_of_none_fault hf hs2
  have hstep : migrateFuel 1 ({ db with smTable := some [] } : DB σ) keys body =
      migrateLoop body (-1) (sortInts keys) ({ db with smTable := some [] } : DB σ) := by
    rw [show (1 : Nat) = 0 + 1 from rfl, migrateFuel_succ_eq, hw2]
    rfl
  rw [hstep]
  obtain ⟨he1, hi1⟩ := migrateLoop_all_ok body (-1) hb (sortInts keys) _ [] hs2
    (by simp) (sortInts_nodup hnd)
  have hfil : (sortInts keys).filter (fun k => decide (-1 < k)) = sortInts keys :=
    List.filter_eq_self.mpr
      (fun k hk => by simpa using hgt k ((sortInts_perm keys).mem_iff.mp hk))
  obtain ⟨new, h1, h2, _⟩ := migrateLoop_records body (-1) (sortInts keys) _ [] hs2
  rw [committedOf_err_none he1] at h2
  refine ⟨he1, by rw [hi1, hfil], ⟨new, by simpa using h1, by rw [h2, hi1, hfil]⟩⟩

/-- C6 witness: a fresh PostgreSQL database with migrations numbered 5
and 1 and succeeding bodies ends with success and records [1, 5]. -/
theorem claim_C6_witness :
    (Migrate (⟨.postgres, none, 0, none, 0⟩ : DB Nat) [5, 1]
        (fun _ u => .ok (u + 1))).err = none ∧
      (Migrate (⟨.postgres, none, 0, none, 0⟩ : DB Nat) [5, 1]
          (fun _ u => .ok (u + 1))).invoked = sortInts [5, 1] ∧
      ∃ new,
        (Migrate (⟨.postgres, none, 0, none, 0⟩ : DB Nat) [5, 1]
            (fun _ u => .ok (u + 1))).db.smTable = some new ∧
          new.map Prod.fst = sortInts [5, 1] :=
  claim_C6 (⟨.postgres, none, 0, none, 0⟩ : DB Nat) [5, 1] (fun _ u => .ok (u + 1))
    rfl rfl (Or.inl rfl) (fun _ u => ⟨u + 1, rfl⟩) (by decide) (by decide)

/-- C9: invoking `Migrate` with an empty migration mapping on a
recognized backend returns success and executes no migration bodies; if
the bookkeeping table is absent it is still created (empty), and if it
is present the database is left entirely unchanged. -/
theorem claim_C9 {σ : Type} (db : DB σ) (body : Int → Mig σ)
    (hf : db.queryFault = none)
    (hd : db.driver = .postgres ∨ db.driver = .sqlite) :
    (Migrate db [] body).err = none ∧
      (Migrate db [] body).invoked = [] ∧
      (db.smTable = none → (Migrate db [] body).db.smTable = some []) ∧
      (∀ recs, db.smTable = some recs → (Migrate db [] body).db = db) := by
  cases hs : db.smTable with
  | some recs =>
    have hw : selectWatermark db = .ok (maxVersion recs) :=
      selectWatermark_ok_of_none_fault hf hs
    rw [Migrate_eq_step, hw]
    refine ⟨rfl, rfl, ?_, ?_⟩
    · intro h
      exact Option.noConfusion h
    · intro recs2 _
      rfl
  | none =>
    have hw := selectWatermark_missing_of_no_table hf hs hd
    have hinit : initializeSchemaMigrations db = .ok { db with smTable := some [] } := by
      unfold initializeSchemaMigrations
      rw [hs]
    rw [Migrate_eq_step, hw]
    simp only [show (Err.missingSchemaMigration).is .missingSchemaMigration = true from
      by decide, if_true, hinit]
    have hstep : migrateFuel 1 ({ db with smTable := some [] } : DB σ) [] body =
        ⟨{ db with smTable := some [] }, [], 0, none⟩ := by
      rw [show (1 : Nat) = 0 + 1 from rfl, migrateFuel_succ_eq,
        selectWatermark_ok_of_none_fault
          (show ({ db with smTable := some [] } : DB σ).queryFault = none from hf) rfl]
      rfl
    rw [hstep]
    refine ⟨rfl, rfl, fun _ => rfl, ?_⟩
    · intro recs2 h
      exact Option.noConfusion h

/-- C9 witness: the empty mapping on a fresh SQLite database succeeds,
invokes nothing, and creates the empty bookkeeping table. -/
theorem claim_C9_witness :
    (Migrate (⟨.sqlite, none, 7, none, 0⟩ : DB Nat) [] (fun _ u => .ok u)).err = none ∧
      (Migrate (⟨.sqlite, none, 7, none, 0⟩ : DB Nat) [] (fun _ u => .ok u)).invoked = [] ∧
      ((⟨.sqlite, none, 7, none, 0⟩ : DB Nat).smTable = none →
        (Migrate (⟨.sqlite, none, 7, none, 0⟩ : DB Nat) [] (fun _ u => .ok u)).db.smTable =
          some []) ∧
      (∀ recs, (⟨.sqlite, none, 7, none, 0⟩ : DB Nat).smTable = some recs →
        (Migrate (⟨.sqlite, none, 7, none, 0⟩ : DB Nat) [] (fun _ u => .ok u)).db =
          ⟨.sqlite, none, 7, none, 0⟩) :=
  claim_C9 (⟨.sqlite, none, 7, none, 0⟩ : DB Nat) (fun _ u => .ok u) rfl (Or.inr rfl)

/-- C10: on a fresh database (empty bookkeeping table, watermark -1), a
supplied migration with version 0 is treated as outstanding: its body is
invoked, and (when bodies succeed and versions are distinct) a record
for 0 is created; any supplied version at or below -1 is silently
skipped — never invoked and never recorded — with no validation
rejecting non-positive versions. -/
theorem claim_C10 {σ : Type} (db : DB σ) (keys : List Int) (body : Int → Mig σ)
    (hs : db.smTable = some []) (hf : db.queryFault = none) :
    (0 ∈ keys → 0 ∈ (Migrate db keys body).invoked) ∧
      ((∀ k u, ∃ u2, body k u = .ok u2) → keys.Nodup → 0 ∈ keys →
        0 ∈ versions (Migrate db keys body).db) ∧
      (∀ v ∈ keys, v ≤ -1 →
        ¬ v ∈ (Migrate db keys body).invoked ∧
          ¬ v ∈ versions (Migrate db keys body).db) := by
  have hw : selectWatermark db = .ok (maxVersion []) :=
    selectWatermark_ok_of_none_fault hf hs
  have hM : Migrate db keys body = migrateLoop body (-1) (sortInts keys) db := by
    rw [Migrate_eq_step, hw]
    rfl
  rw [hM]
  refine ⟨?_, ?_, ?_⟩
  · intro h0
    exact migrateLoop_mem_invoked_of_min body (-1) (sortInts keys) db 0
      (sortInts_sorted keys) ((sortInts_perm keys).mem_iff.mpr h0)
      (by decide) (fun k _ => by omega)
  · intro hb hnd h0
    obtain ⟨he1, hi1⟩ := migrateLoop_all_ok body (-1) hb (sortInts keys) db [] hs
      (by simp) (sortInts_nodup hnd)
    obtain ⟨new, h1, h2, _⟩ := migrateLoop_records body (-1) (sortInts keys) db [] hs
    rw [committedOf_err_none he1] at h2
    simp only [versions, h1, List.nil_append]
    rw [h2, hi1]
    exact List.mem_filter.mpr ⟨(sortInts_perm keys).mem_iff.mpr h0, by decide⟩
  · intro v hv hvle
    constructor
    · intro hmem
      have := migrateLoop_invoked_gt body (-1) (sortInts keys) db v hmem
      omega
    · intro hmem
      obtain ⟨new, h1, _, h3⟩ := migrateLoop_records body (-1) (sortInts keys) db [] hs
      simp only [versions, h1, List.nil_append] at hmem
      obtain ⟨p, hp, hpk⟩ := List.mem_map.mp hmem
      have := (h3 p hp).2
      omega

/-- C10 witness: on a fresh database with versions [-2, 0, 3], version 0
is invoked and recorded while -2 is neither invoked nor recorded. -/
theorem claim_C10_witness :
    (0 ∈ [(-2 : Int), 0, 3] →
        0 ∈ (Migrate (⟨.sqlite, some [], 0, none, 0⟩ : DB Nat) [-2, 0, 3]
          (fun _ u => .ok (u + 1))).invoked) ∧
      ((∀ (k : Int) (u : Nat), ∃ u2, (fun _ u => (.ok (u + 1) : Except Err Nat)) k u = .ok u2) →
        List.Nodup [(-2 : Int), 0, 3] → 0 ∈ [(-2 : Int), 0, 3] →
        0 ∈ versions (Migrate (⟨.sqlite, some [], 0, none, 0⟩ : DB Nat) [-2, 0, 3]
          (fun _ u => .ok (u + 1))).db) ∧
      (∀ v ∈ [(-2 : Int), 0, 3], v ≤ -1 →
        ¬ v ∈ (Migrate (⟨.sqlite, some [], 0, none, 0⟩ : DB Nat) [-2, 0, 3]
            (fun _ u => .ok (u + 1))).invoked ∧
          ¬ v ∈ versions (Migrate (⟨.sqlite, some [], 0, none, 0⟩ : DB Nat) [-2, 0, 3]
            (fun _ u => .ok (u + 1))).db) :=
  claim_C10 (⟨.sqlite, some [], 0, none, 0⟩ : DB Nat) [-2, 0, 3]
    (fun _ u => .ok (u + 1)) rfl rfl

/-- C1: with the bookkeeping table present (watermark `maxVersion recs`),
if the sorted keys split as `pre ++ v :: rest` with `v` outstanding, the
loop over `pre` succeeds, and the body of `v` then fails, `Migrate`
aborts immediately: the failing transaction is rolled back (the final
state is the state before `v`'s transaction), the body error is
returned, no body after `v` is invoked (the invocation list is the
invocations from `pre` followed by `v`, all at most `v`), and records
exist exactly for the migrations committed before `v`, none for `v` or
any higher version. -/
theorem claim_C1 {σ : Type} (db : DB σ) (keys : List Int) (body : Int → Mig σ)
    (recs : List (Int × Nat)) (v : Int) (e : Err) (pre rest : List Int)
    (hf : db.queryFault = none) (hs : db.smTable = some recs) (hnd : keys.Nodup)
    (hsplit : sortInts keys = pre ++ v :: rest)
    (hv : maxVersion recs < v)
    (hpre : (migrateLoop body (maxVersion recs) pre db).err = none)
    (hbody : body v (migrateLoop body (maxVersion recs) pre db).db.user = .error e) :
    Migrate db keys body =
      ⟨(migrateLoop body (maxVersion recs) pre db).db,
       (migrateLoop body (maxVersion recs) pre db).invoked ++ [v], 0, some e⟩ ∧
      (∀ x ∈ (migrateLoop body (maxVersion recs) pre db).invoked, x < v) ∧
      (∀ x ∈ versions (migrateLoop body (maxVersion recs) pre db).db, x < v) := by
  have hw : selectWatermark db = .ok (maxVersion recs) :=
    selectWatermark_ok_of_none_fault hf hs
  have hsorted : List.Sorted (· < ·) (sortInts keys) := sortInts_sorted_lt hnd
  have hprelt : ∀ x ∈ pre, x < v := by
    intro x hx
    rw [hsplit] at hsorted
    exact (List.pairwise_append.mp hsorted).2.2 x hx v (List.mem_cons_self v rest)
  refine ⟨?_, ?_, ?_⟩
  · have hM : Migrate db keys body =
        migrateLoop body (maxVersion recs) (sortInts keys) db := by
      rw [Migrate_eq_step, hw]
    rw [hM, hsplit,
      migrateLoop_append_err_none body (maxVersion recs) pre (v :: rest) db hpre]
    have happ : applyOne (migrateLoop body (maxVersion recs) pre db).db v (body v) =
        .error e := applyOne_body_error hbody
    have hstep : migrateLoop body (maxVersion recs) (v :: rest)
        (migrateLoop body (maxVersion recs) pre db).db =
        ⟨(migrateLoop body (maxVersion recs) pre db).db, [v], 0, some e⟩ := by
      simp only [migrateLoop, if_neg (not_le_of_lt hv), happ]
    rw [hstep]
  · intro x hx
    exact hprelt x ((migrateLoop_invoked_sublist body (maxVersion recs) pre db).subset hx)
  · intro x hx
    obtain ⟨new, h1, _, h3⟩ := migrateLoop_records body (maxVersion recs) pre db recs hs
    simp only [versions, h1] at hx
    rw [List.map_append] at hx
    rcases List.mem_append.mp hx with hx | hx
    · obtain ⟨p, hp, hpk⟩ := List.mem_map.mp hx
      rw [← hpk]
      exact lt_of_le_of_lt (maxVersion_mem_le hp) hv
    · obtain ⟨p, hp, hpk⟩ := List.mem_map.mp hx
      rw [← hpk]
      exact hprelt p.1 (h3 p hp).1

/-- C1 witness: keys [1, 2] from an empty store where the body of 2
fails: migration 1 commits, the error of 2 is returned, and no record
for 2 or higher exists. -/
theorem claim_C1_witness :
    (Migrate (⟨.sqlite, some [], 0, none, 0⟩ : DB Nat) [1, 2]
        (fun k u => if k == 2 then .error (.generic "boom") else .ok (u + 1)) =
      ⟨(migrateLoop (fun k u => if k == 2 then .error (.generic "boom") else .ok (u + 1))
          (maxVersion []) [1] (⟨.sqlite, some [], 0, none, 0⟩ : DB Nat)).db,
       (migrateLoop (fun k u => if k == 2 then .error (.generic "boom") else .ok (u + 1))
          (maxVersion []) [1] (⟨.sqlite, some [], 0, none, 0⟩ : DB Nat)).invoked ++ [2],
       0, some (.generic "boom")⟩) ∧
      (∀ x ∈ (migrateLoop (fun k u => if k == 2 then .error (.generic "boom") else .ok (u + 1))
          (maxVersion []) [1] (⟨.sqlite, some [], 0, none, 0⟩ : DB Nat)).invoked, x < 2) ∧
      (∀ x ∈ versions (migrateLoop
          (fun k u => if k == 2 then .error (.generic "boom") else .ok (u + 1))
          (maxVersion []) [1] (⟨.sqlite, some [], 0, none, 0⟩ : DB Nat)).db, x < 2) :=
  claim_C1 (⟨.sqlite, some [], 0, none, 0⟩ : DB Nat) [1, 2]
    (fun k u => if k == 2 then .error (.generic "boom") else .ok (u + 1))
    [] 2 (.generic "boom") [1] [] rfl rfl (by decide) (by decide) (by decide)
    (by decide) (by decide)
